import Mathlib

/-!
Verification development for the RIPS evaluation dashboard
(`evaluacion-rips-2026`).  The ingestion pipeline, identity
normalisation, aggregation/ranking engine and duplicate-removal
operations of the source are shallowly embedded below; strings are
modelled as `List Char` and the JavaScript regular expressions used by
the source are implemented as explicit scanners with the same
leftmost-match / alternative-order / greediness semantics, restricted
to the character classes the source actually uses.
-/

/-- Strings of the embedded program, modelled as lists of characters. -/
abbrev Str := List Char

namespace Rips

/-! ### Character classes (ASCII, matching the JS regexes of the source) -/

/-- The characters removed by JavaScript `trim()` and matched by `\s`
(whitespace; the source only ever feeds text lines, so the ASCII
whitespace characters plus NBSP suffice). -/
def isJsSpace (c : Char) : Bool :=
  decide (c.toNat = 32 ∨ (9 ≤ c.toNat ∧ c.toNat ≤ 13) ∨ c.toNat = 160)

/-- Decimal digit, the class `\d` of the source's regexes. -/
def isDigitB (c : Char) : Bool :=
  decide (48 ≤ c.toNat ∧ c.toNat ≤ 57)

/-- ASCII alphanumeric: the class `[0-9A-Za-z]` kept by `normalizeId`. -/
def isAlnumB (c : Char) : Bool :=
  decide ((48 ≤ c.toNat ∧ c.toNat ≤ 57) ∨ (65 ≤ c.toNat ∧ c.toNat ≤ 90)
          ∨ (97 ≤ c.toNat ∧ c.toNat ≤ 122))

/-- Word character of the JS `\b` boundary: `[A-Za-z0-9_]`. -/
def isWordChar (c : Char) : Bool := isAlnumB c || c = '_'

/-- ASCII uppercasing, the effect of JS `toUpperCase()` on the ASCII
range.  The source only compares uppercased text against ASCII tokens
("USUARIOS", "CONSULTAS", …), for which the ASCII mapping is exact. -/
def jsToUpperChar (c : Char) : Char :=
  if 97 ≤ c.toNat ∧ c.toNat ≤ 122 then Char.ofNat (c.toNat - 32) else c

/-- Uppercase a whole string. -/
def jsToUpperStr (s : Str) : Str := s.map jsToUpperChar

/-! ### Basic string operations -/

/-- `leadsB s t` holds when `s` is an initial segment of `t`. -/
def leadsB : Str → Str → Bool
  | [], _ => true
  | _ :: _, [] => false
  | a :: s, b :: t => a = b && leadsB s t

/-- JS `hay.includes(sub)` on strings. -/
def strContains : Str → Str → Bool
  | [], sub => leadsB sub []
  | c :: t, sub => leadsB sub (c :: t) || strContains t sub

/-- JS `String.prototype.trim()`. -/
def jsTrim (s : Str) : Str :=
  ((s.dropWhile isJsSpace).reverse.dropWhile isJsSpace).reverse

/-- JS `split(sep)` for a one-character separator. -/
def splitOnChar (sep : Char) : Str → List Str
  | [] => [[]]
  | c :: t =>
    match splitOnChar sep t with
    | [] => [[]]
    | p :: ps => if c = sep then [] :: p :: ps else (c :: p) :: ps

/-- `x.replace(/[|]$/, '')`: remove one trailing pipe if present. -/
def stripTrailPipe (s : Str) : Str :=
  match s.reverse with
  | '|' :: r => r.reverse
  | _ => s

/-- JS `a || b` on strings (empty string is falsy). -/
def jsOr (a b : Str) : Str := if a = [] then b else a

/-- `arr.join(" ")`. -/
def joinSpaces : List Str → Str
  | [] => []
  | [s] => s
  | s :: t => s ++ ' ' :: joinSpaces t

/-! ### `normalizeId` (src/utils/logic.ts lines 53-61) -/

/-- Case-insensitive comparison of one character against a letter given
in both cases, as produced by the `/i` flag of the source's regexes. -/
def ciIs (c up lo : Char) : Bool := c = up || c = lo

/-- Whether two characters spell one of the document-type codes
`CC|TI|RC|CE|PA|PE|CN|MS`, case-insensitively. -/
def docPair (c1 c2 : Char) : Bool :=
  (ciIs c1 'C' 'c' && ciIs c2 'C' 'c') || (ciIs c1 'T' 't' && ciIs c2 'I' 'i') ||
  (ciIs c1 'R' 'r' && ciIs c2 'C' 'c') || (ciIs c1 'C' 'c' && ciIs c2 'E' 'e') ||
  (ciIs c1 'P' 'p' && ciIs c2 'A' 'a') || (ciIs c1 'P' 'p' && ciIs c2 'E' 'e') ||
  (ciIs c1 'C' 'c' && ciIs c2 'N' 'n') || (ciIs c1 'M' 'm' && ciIs c2 'S' 's')

/-- Whether a string starts with one of the document-type codes. -/
def docPairLeads : Str → Bool
  | c1 :: c2 :: _ => docPair c1 c2
  | _ => false

/-- `x.replace(/^(CC|TI|RC|CE|PA|PE|CN|MS)[-\s]*/i, "")`: strip one
leading document-type code followed by any run of dashes/whitespace. -/
def stripDocCode (s : Str) : Str :=
  match s with
  | c1 :: c2 :: rest =>
    if docPair c1 c2 then rest.dropWhile (fun c => c = '-' || isJsSpace c) else s
  | _ => s

/-- `normalizeId` from src/utils/logic.ts lines 53-61: trim, strip one
document-type code with following dashes/spaces, keep ASCII
alphanumerics, uppercase.  (The `null`/`undefined` early return is the
empty string and is covered by the empty list.) -/
def normalizeId (v : Str) : Str :=
  ((stripDocCode (jsTrim v)).filter isAlnumB).map jsToUpperChar

/-! ### Regex scanners

Each unanchored regex of the source is modelled as a scanner that
tries a match attempt at every position from the left, exactly like
the JS engine: the first position with a successful attempt wins, and
at one position the alternatives are tried in the order written. -/

/-- Leftmost-match driver: try `tA` at every suffix, keeping track of
the character just before the current position (for `\b`). -/
def scanM {α : Type} (tA : Option Char → Str → Option α) :
    Option Char → Str → Option α
  | p, [] => tA p []
  | p, c :: t =>
    match tA p (c :: t) with
    | some r => some r
    | none => scanM tA (some c) t

/-- `\b` on the left of a match: start of string or a non-word char. -/
def boundaryL : Option Char → Bool
  | none => true
  | some c => !isWordChar c

/-- `\b` on the right of a match: end of string or a non-word char. -/
def boundaryR : Str → Bool
  | [] => true
  | c :: _ => !isWordChar c

/-- Maximal run of digits at the front of a string (what the greedy
`\d{m,n}` consumes before the engine checks the rest). -/
def digitRun (s : Str) : Str := s.takeWhile isDigitB

/-- Match attempt of `\b\d{6}\b` at one position.  With both
boundaries present this is: the maximal digit run here has length
exactly 6 and is followed by a boundary. -/
def sixAt (p : Option Char) (s : Str) : Option Str :=
  let run := digitRun s
  if boundaryL p && run.length = 6 && boundaryR (s.drop 6) then some run else none

/-- `l.match(/\b\d{6}\b/)`, first match (part_000 line 300). -/
def matchSixDigit (l : Str) : Option Str := scanM sixAt none l

/-- Attempt of the first alternative
`\b(?:CC|TI|RC|CE|PA|PE|CN|MS)-?\d{4,15}\b` at one position (the left
boundary is checked by `patAt`).  The greedy `\d{4,15}` can only end
at the end of the digit run (a digit is a word character), so the
attempt succeeds exactly when the run after the optional dash has
length 4..15 and is followed by a boundary. -/
def patDocAt (s : Str) : Option Str :=
  match s with
  | c1 :: c2 :: rest =>
    if docPair c1 c2 then
      if rest.head? = some '-' then
        let run := digitRun rest.tail
        if 4 ≤ run.length && run.length ≤ 15 && boundaryR (rest.tail.drop run.length) then
          some (c1 :: c2 :: '-' :: run)
        else none
      else
        let run := digitRun rest
        if 4 ≤ run.length && run.length ≤ 15 && boundaryR (rest.drop run.length) then
          some (c1 :: c2 :: run)
        else none
    else none
  | _ => none

/-- Attempt of the second alternative `\b\d{6,15}\b` at one position. -/
def patBareAt (s : Str) : Option Str :=
  let run := digitRun s
  if 6 ≤ run.length && run.length ≤ 15 && boundaryR (s.drop run.length) then
    some run
  else none

/-- Attempt of the full patient-identifier regex
`\b(?:CC|TI|RC|CE|PA|PE|CN|MS)-?\d{4,15}\b|\b\d{6,15}\b`
at one position: alternatives in written order. -/
def patAt (p : Option Char) (s : Str) : Option Str :=
  if boundaryL p then
    match patDocAt s with
    | some t => some t
    | none => patBareAt s
  else none

/-- `l.match(/\b(?:CC|TI|RC|CE|PA|PE|CN|MS)-?\d{4,15}\b|\b\d{6,15}\b/)`
(part_000 line 306). -/
def findPatientTok (l : Str) : Option Str := scanM patAt none l

/-- Attempt of `\d{4}-\d{2}-\d{2}` (no boundaries) at one position. -/
def dAt1 (s : Str) : Bool :=
  match s with
  | a :: b :: c :: d :: '-' :: e :: f :: '-' :: g :: h :: _ =>
    ([a, b, c, d, e, f, g, h].all isDigitB)
  | _ => false

/-- Attempt of `\d{2}\/\d{2}\/\d{4}` (no boundaries) at one position. -/
def dAt2 (s : Str) : Bool :=
  match s with
  | a :: b :: '/' :: c :: d :: '/' :: e :: f :: g :: h :: _ =>
    ([a, b, c, d, e, f, g, h].all isDigitB)
  | _ => false

/-- `/\d{4}-\d{2}-\d{2}|\d{2}\/\d{2}\/\d{4}/.test(l)` (part_000 line 266). -/
def hasDatePattern (l : Str) : Bool :=
  (scanM (fun _ s => if dAt1 s || dAt2 s then some () else none) none l).isSome

/-- `/\b(M|F)\b/i.test(l)` (part_000 line 267). -/
def hasSexTok (l : Str) : Bool :=
  (scanM
    (fun p s =>
      match s with
      | c :: r =>
        if boundaryL p && (c = 'M' || c = 'F' || c = 'm' || c = 'f') && boundaryR r then
          some ()
        else none
      | [] => none)
    none l).isSome

/-- Attempt of `\b(\d{4}-\d{2}-\d{2})\b` at one position (left boundary
checked by `pdAt`), returning the matched substring. -/
def pd1 (s : Str) : Option Str :=
  match s with
  | a :: b :: c :: d :: '-' :: e :: f :: '-' :: g :: h :: r =>
    if ([a, b, c, d, e, f, g, h].all isDigitB) && boundaryR r then
      some [a, b, c, d, '-', e, f, '-', g, h]
    else none
  | _ => none

/-- Attempt of `\b(\d{2}\/\d{2}\/\d{4})\b` at one position. -/
def pd2 (s : Str) : Option Str :=
  match s with
  | a :: b :: '/' :: c :: d :: '/' :: e :: f :: g :: h :: r =>
    if ([a, b, c, d, e, f, g, h].all isDigitB) && boundaryR r then
      some [a, b, '/', c, d, '/', e, f, g, h]
    else none
  | _ => none

/-- Attempt of the full date regex of `parseDateFromLine`. -/
def pdAt (p : Option Char) (s : Str) : Option Str :=
  if boundaryL p then
    match pd1 s with
    | some t => some t
    | none => pd2 s
  else none

/-- `parseDateFromLine` (src/utils/logic.ts lines 63-67): first match of
`\b(\d{4}-\d{2}-\d{2})\b|\b(\d{2}\/\d{2}\/\d{4})\b`, else "". -/
def parseDateFromLine (l : Str) : Str := (scanM pdAt none l).getD []

/-! ### Anchored per-field tests of the roster branch -/

/-- `/^\d+$/.test(p)` combined with the truthiness check `!idCand`:
a non-empty all-digit string. -/
def isNumericStr (p : Str) : Bool := !(p = []) && p.all isDigitB

/-- `/^(?:CC|TI|RC|CE|PA|PE|CN|MS)?-?\d{3,20}$/i.test(p)`
(part_000 line 277): both the with-code and without-code readings are
tried, as regex backtracking does. -/
def idTail (t : Str) : Bool :=
  let t2 := match t with
            | '-' :: r => r
            | _ => t
  (t2.all isDigitB) && 3 ≤ t2.length && t2.length ≤ 20 && !(t2 = [])

/-- See `idTail`. -/
def isIdCandidate (p : Str) : Bool :=
  (match p with
   | c1 :: c2 :: r => docPair c1 c2 && idTail r
   | _ => false) || idTail p

/-- `/^(M|F)$/i.test(p)` (part_000 line 283). -/
def isSexToken (p : Str) : Bool :=
  p = ['M'] || p = ['F'] || p = ['m'] || p = ['f']

/-- `/^\d{4}-\d{2}-\d{2}$/.test(p) || /^\d{2}\/\d{2}\/\d{4}$/.test(p)`
(part_000 line 284). -/
def isDateExactTok (p : Str) : Bool :=
  (match p with
   | [a, b, c, d, '-', e, f, '-', g, h] => [a, b, c, d, e, f, g, h].all isDigitB
   | _ => false) ||
  (match p with
   | [a, b, '/', c, d, '/', e, f, g, h] => [a, b, c, d, e, f, g, h].all isDigitB
   | _ => false)

/-- Letter of the name heuristic `[A-Za-zÁÉÍÓÚÑ]` (part_000 line 286);
note the class contains only the uppercase accented letters. -/
def isNameLetter (c : Char) : Bool :=
  decide ((65 ≤ c.toNat ∧ c.toNat ≤ 90) ∨ (97 ≤ c.toNat ∧ c.toNat ≤ 122)) ||
  c = 'Á' || c = 'É' || c = 'Í' || c = 'Ó' || c = 'Ú' || c = 'Ñ'

/-- Name-candidate filter of part_000 line 286: has a Latin letter, is
not a bare sex token, is not purely numeric, and is longer than 2. -/
def isNameCand (p : Str) : Bool :=
  p.any isNameLetter && !isSexToken p && !(isNumericStr p) && 2 < p.length

/-! ### Data model (src/types.ts, part_001) -/

/-- `RipsRecord`: one ingested service encounter. -/
structure RipsRecord where
  cups : Str
  paciente : Str
  tipo : Str
  nombre : Str
  fecha : Str
deriving DecidableEq

/-- `UserRecord`: one roster (patient) entry. -/
structure UserRecord where
  id : Str
  sexo : Str
  fnac : Str
  nombre : Str
deriving DecidableEq

/-- `MaestroCupItem`: one catalog entry. -/
structure MaestroCupItem where
  cups : Str
  tipo : Str
  nombre : Str
deriving DecidableEq

/-- `ServiceTypeMeta`: one configured goal. -/
structure ServiceTypeMeta where
  type : Str
  monthlyGoal : Int
  active : Bool
deriving DecidableEq

/-! ### JS `Map` semantics: insertion-ordered association lists -/

/-- `Map.get` / object property read. -/
def mapGet {α : Type} : List (Str × α) → Str → Option α
  | [], _ => none
  | (a, b) :: t, k => if a = k then some b else mapGet t k

/-- `Map.set` / object property write: update in place, else append. -/
def mapSet {α : Type} : List (Str × α) → Str → α → List (Str × α)
  | [], k, v => [(k, v)]
  | (a, b) :: t, k, v => if a = k then (k, v) :: t else (a, b) :: mapSet t k v

/-- `Map.has`. -/
def mapHas {α : Type} (m : List (Str × α)) (k : Str) : Bool := (mapGet m k).isSome

/-- The patient roster, keyed by normalised id (insertion-ordered). -/
abbrev UsersMap := List (Str × UserRecord)

/-- The service-code catalog (insertion-ordered). -/
abbrev CupsMap := List (Str × MaestroCupItem)

/-! ### The per-line ingestion state machine (part_000 lines 235-321) -/

/-- "USUARIOS" as a string constant of the model. -/
def strUSUARIOS : Str := "USUARIOS".data

/-- "SERVICIOS" as a string constant of the model. -/
def strSERVICIOS : Str := "SERVICIOS".data

/-- "SIN_ID" as a string constant of the model. -/
def strSINID : Str := "SIN_ID".data

/-- The mutable state threaded through the line loop: the current
section, the accumulating roster map, and the accumulating record list. -/
structure LineState where
  sec : Str
  users : UsersMap
  regs : List RipsRecord
deriving DecidableEq

/-- Header check of part_000 line 242: uppercased line contains
"USUARIOS" together with one of the glyphs `*`, `°`, `-`. -/
def isUserHeader (u : Str) : Bool :=
  strContains u strUSUARIOS &&
    (strContains u "*".data || strContains u "°".data || strContains u "-".data)

/-- Header check of part_000 line 246. -/
def isServiceHeader (u : Str) : Bool :=
  strContains u "CONSULTAS".data || strContains u "PROCEDIMIENTOS".data ||
  strContains u "MEDICAMENTOS".data || strContains u "OTROS SERVICIOS".data

/-- Separator detection of part_000 lines 252-260: comma split (with a
trailing pipe stripped from each trimmed field) when the line has at
least 3 commas, else pipe split, else no usable separator. -/
def sepSplit (l : Str) : Option (List Str) :=
  if l.contains ',' && 3 ≤ l.count ',' then
    some ((splitOnChar ',' l).map (fun x => stripTrailPipe (jsTrim x)))
  else if l.contains '|' then
    some ((splitOnChar '|' l).map jsTrim)
  else none

/-- Roster branch of part_000 lines 274-297. -/
def procRoster (users : UsersMap) (regs : List RipsRecord) (sec : Str)
    (parts : List Str) : LineState :=
  let p1 := parts.getD 1 []
  let idCand := if isNumericStr p1 then p1 else (parts.find? isIdCandidate).getD []
  let id := normalizeId idCand
  if id = [] ∨ id.length < 3 then ⟨sec, users, regs⟩
  else
    let sexo := jsToUpperStr ((parts.find? isSexToken).getD [])
    let fnac := (parts.find? isDateExactTok).getD []
    let nombre := joinSpaces ((parts.filter isNameCand).take 4)
    let prev := (mapGet users id).getD ⟨id, [], [], []⟩
    ⟨sec, mapSet users id ⟨id, jsOr sexo prev.sexo, jsOr fnac prev.fnac, jsOr nombre prev.nombre⟩, regs⟩

/-- Service branch of part_000 lines 300-319. -/
def procService (cups : CupsMap) (users : UsersMap) (regs : List RipsRecord)
    (sec : Str) (l : Str) : LineState :=
  match matchSixDigit l with
  | none => ⟨sec, users, regs⟩
  | some code =>
    if mapHas cups code then
      let info := (mapGet cups code).getD ⟨[], [], []⟩
      let pacienteRaw := (findPatientTok l).getD strSINID
      let paciente := jsOr (normalizeId pacienteRaw) strSINID
      ⟨sec, users, regs ++ [⟨code, paciente, info.tipo, info.nombre, parseDateFromLine l⟩]⟩
    else ⟨sec, users, regs⟩

/-- One iteration of the line loop of part_000 lines 235-321: trim and
skip empty lines, header-based section switches, separator detection,
the content heuristic (which assigns the loop's `section` variable),
then the roster or service branch. -/
def processLine (cups : CupsMap) (st : LineState) (raw : Str) : LineState :=
  let l := jsTrim raw
  if l = [] then st
  else
    let upper := jsToUpperStr l
    if isUserHeader upper then ⟨strUSUARIOS, st.users, st.regs⟩
    else if isServiceHeader upper then ⟨strSERVICIOS, st.users, st.regs⟩
    else
      match sepSplit l with
      | none => st
      | some parts =>
        if parts.length < 2 then st
        else
          let sec := if ¬ st.sec = strUSUARIOS ∧ hasDatePattern l ∧ hasSexTok l
                     then strUSUARIOS else st.sec
          if strContains sec strUSUARIOS then procRoster st.users st.regs sec parts
          else procService cups st.users st.regs sec l

/-- Run the line loop over a list of raw lines. -/
def processLines (cups : CupsMap) (st : LineState) (lines : List Str) : LineState :=
  lines.foldl (processLine cups) st

/-! ### The batch (part_000 lines 187-333)

`processFiles` reads the catalog, then every RIPS file, and commits
`setMaestro` as soon as the catalog is parsed, while `setRegistros` /
`setUsuariosMap` are only reached after the whole loop; any thrown
exception jumps to the `catch` block, which performs no state update.
The two external effects that can throw — reading/parsing the catalog
workbook and `file.text()` — are modelled as `Except` inputs; the
catalog rows arrive as the already-extracted string triple per row
(`x["CUPS VIGENTE"]`, `x["Tipo Ser"]`, `x["NOMBRE CUPS"]`, with the
`String(... || "")` defaulting applied by the external reader), and a
file arrives as its name and its already-split list of lines. -/

/-- One catalog row as handed over by the spreadsheet reader. -/
structure CatRow where
  cupsVigente : Str
  tipoSer : Str
  nombreCups : Str
deriving DecidableEq

/-- One readable RIPS file: name plus lines (`txt.split(/\r?\n/)`). -/
structure FileInput where
  name : Str
  lines : List Str
deriving DecidableEq

/-- The caller-visible committed state: the three React state cells
`registros`, `usuariosMap` and `maestro`. -/
structure Committed where
  registros : List RipsRecord
  usuarios : UsersMap
  maestro : CupsMap
deriving DecidableEq

/-- Catalog construction (part_000 lines 204-213): trim the code, skip
empty codes, last write wins per code. -/
def buildCupsMap (rows : List CatRow) : CupsMap :=
  rows.foldl
    (fun m x =>
      let c := jsTrim x.cupsVigente
      if c = [] then m
      else mapSet m c ⟨c, jsTrim x.tipoSer, jsTrim x.nombreCups⟩)
    []

/-- Filename fallback for the initial section (part_000 lines 221-226). -/
def getSectionFromFilename (name : Str) : Str :=
  let n := jsToUpperStr name
  if leadsB "US".data n then strUSUARIOS
  else if leadsB "AC".data n || leadsB "AP".data n || leadsB "AM".data n
          || leadsB "AT".data n then strSERVICIOS
  else []

/-- The RIPS file loop (part_000 lines 228-321): the section resets per
file from the filename, the roster map and record list accumulate;
`.error` models `await file.text()` throwing, which aborts the loop. -/
def processFilesGo (cups : CupsMap) :
    UsersMap → List RipsRecord → List (Except Unit FileInput) →
    Except Unit (UsersMap × List RipsRecord)
  | users, regs, [] => .ok (users, regs)
  | _, _, .error e :: _ => .error e
  | users, regs, .ok f :: rest =>
    let st := processLines cups ⟨getSectionFromFilename f.name, users, regs⟩ f.lines
    processFilesGo cups st.users st.regs rest

/-- `processFiles` (part_000 lines 187-333) at the level of committed
state.  A failed catalog read throws before `setMaestro`, so nothing is
committed; once the catalog parses, `setMaestro(cupsMap)` has run, so a
later file-read failure leaves the new catalog committed while the
record list and roster keep their previous values (the loop's local
accumulators are discarded by the `catch`). -/
def processFiles (init : Committed) (catalog : Except Unit (List CatRow))
    (files : List (Except Unit FileInput)) : Committed :=
  match catalog with
  | .error _ => init
  | .ok rows =>
    let cups := buildCupsMap rows
    match processFilesGo cups init.usuarios [] files with
    | .error _ => ⟨init.registros, init.usuarios, cups⟩
    | .ok (users, regs) => ⟨regs, users, cups⟩

/-! ### Age computation (src/utils/logic.ts lines 22-51)

`new Date(fn)` / `getFullYear` / `getMonth` / `getDate` are modelled by
an explicit calendar date and an ISO `YYYY-MM-DD` parser with the
ECMAScript range checks (the only date format the engine is specified
to parse deterministically; anything else is "unparsable"). -/

/-- A calendar date as observed through `getFullYear` / month / day.
The model keeps the written month (1-12); the source only ever uses
month differences, which agree with the 0-based `getMonth`. -/
structure SimpleDate where
  year : Int
  month : Int
  day : Int
deriving DecidableEq

/-- Number denoted by a digit string. -/
def natOfDigits (s : Str) : Nat :=
  s.foldl (fun a c => a * 10 + (c.toNat - 48)) 0

/-- Day count of a month, with the Gregorian leap rule (the validity
check ECMAScript applies to ISO date strings). -/
def daysInMonth (y m : Nat) : Nat :=
  if m = 1 ∨ m = 3 ∨ m = 5 ∨ m = 7 ∨ m = 8 ∨ m = 10 ∨ m = 12 then 31
  else if m = 4 ∨ m = 6 ∨ m = 9 ∨ m = 11 then 30
  else if m = 2 then (if y % 4 = 0 ∧ (¬ y % 100 = 0 ∨ y % 400 = 0) then 29 else 28)
  else 0

/-- Parse a `YYYY-MM-DD` string to a valid calendar date, as
`new Date(fn)` does for ISO input; everything else is `none`
(an invalid `Date`, `NaN` time value). -/
def parseISO (s : Str) : Option SimpleDate :=
  match s with
  | [y1, y2, y3, y4, '-', m1, m2, '-', d1, d2] =>
    if [y1, y2, y3, y4, m1, m2, d1, d2].all isDigitB then
      let y := natOfDigits [y1, y2, y3, y4]
      let m := natOfDigits [m1, m2]
      let d := natOfDigits [d1, d2]
      if 1 ≤ m ∧ m ≤ 12 ∧ 1 ≤ d ∧ d ≤ daysInMonth y m then
        some ⟨(y : Int), (m : Int), (d : Int)⟩
      else none
    else none
  | _ => none

/-- The month difference computed by `edadMeses` (logic.ts line 27). -/
def mesesOf (now f : SimpleDate) : Int :=
  (now.year - f.year) * 12 + (now.month - f.month)

/-- The year difference computed by `edadAnios` (logic.ts lines 35-37). -/
def aniosOf (now f : SimpleDate) : Int :=
  let e := now.year - f.year
  if now.month < f.month ∨ (now.month = f.month ∧ now.day < f.day) then e - 1 else e

/-- `edadMeses` (logic.ts lines 22-28), with "now" made explicit. -/
def edadMeses (now : SimpleDate) (fn : Str) : Option Int :=
  if fn = [] then none
  else
    match parseISO fn with
    | none => none
    | some f => some (mesesOf now f)

/-- `edadAnios` (logic.ts lines 30-38), with "now" made explicit. -/
def edadAnios (now : SimpleDate) (fn : Str) : Option Int :=
  if fn = [] then none
  else
    match parseISO fn with
    | none => none
    | some f => some (aniosOf now f)

/-- Bracket strings of `grupoEtarioDesdeFN`. -/
def strPRIMERA : Str := "PRIMERA INFANCIA (0m-5a)".data

/-- See `strPRIMERA`. -/
def strINFANCIA : Str := "INFANCIA (6-11)".data

/-- See `strPRIMERA`. -/
def strADOLESC : Str := "ADOLESCENCIA (12-17)".data

/-- See `strPRIMERA`. -/
def strJOVENES : Str := "JÓVENES (18-28)".data

/-- See `strPRIMERA`. -/
def strADULTEZ : Str := "ADULTEZ (29-59)".data

/-- See `strPRIMERA`. -/
def strVEJEZ : Str := "VEJEZ (60+)".data

/-- `grupoEtarioDesdeFN` (logic.ts lines 40-51). -/
def grupoEtarioDesdeFN (now : SimpleDate) (fn : Str) : Str :=
  if fn = [] then []
  else
    match edadMeses now fn, edadAnios now fn with
    | some m, some a =>
      if m ≤ 60 then strPRIMERA
      else if a ≤ 11 then strINFANCIA
      else if a ≤ 17 then strADOLESC
      else if a ≤ 28 then strJOVENES
      else if a ≤ 59 then strADULTEZ
      else strVEJEZ
    | _, _ => []

/-- `fn` denotes a date not after `now` (lexicographically on
year/month/day): a non-future birth date. -/
def notFuture (f now : SimpleDate) : Prop :=
  f.year < now.year ∨ (f.year = now.year ∧
    (f.month < now.month ∨ (f.month = now.month ∧ f.day ≤ now.day)))

instance (f now : SimpleDate) : Decidable (notFuture f now) := by
  unfold notFuture; infer_instance

/-! ### Aggregation and ranking (part_000 lines 337-493)

The counters `cupsCount`, `cupsPacCount`, … are plain JavaScript
objects.  `Object.entries` therefore does NOT enumerate keys in
insertion order: own-property enumeration lists keys that are canonical
array indices (all digits, no leading zero, value < 2^32-1) first, in
ascending numeric order, and only the remaining ("string") keys in
insertion order.  `jsEntries` reproduces this.  `Array.prototype.sort`
is stable (ES2019), modelled by a stable insertion sort. -/

/-- Canonical array-index key: the keys a JS object enumerates first,
in ascending numeric order. -/
def isIndexKey (s : Str) : Bool :=
  !(s = []) && s.all isDigitB && (s = ['0'] || !leadsB ['0'] s) &&
    natOfDigits s < 4294967295

/-- Stable insertion sort, descending by `key` — the behaviour of the
stable `sort((a, b) => b.count - a.count)` calls of the source. -/
def insDesc {α : Type} (key : α → Nat) (x : α) : List α → List α
  | [] => [x]
  | y :: t => if key y ≤ key x then x :: y :: t else y :: insDesc key x t

/-- See `insDesc`. -/
def ssortDesc {α : Type} (key : α → Nat) : List α → List α
  | [] => []
  | x :: t => insDesc key x (ssortDesc key t)

/-- Stable insertion sort, ascending by `key` (for the numeric-index
part of JS own-property enumeration; index keys are unique, so
stability is irrelevant there). -/
def insAsc {α : Type} (key : α → Nat) (x : α) : List α → List α
  | [] => [x]
  | y :: t => if key x ≤ key y then x :: y :: t else y :: insAsc key x t

/-- See `insAsc`. -/
def ssortAsc {α : Type} (key : α → Nat) : List α → List α
  | [] => []
  | x :: t => insAsc key x (ssortAsc key t)

/-- `Object.entries` / own-property enumeration order of a JS object
whose property writes happened in the order of the association list. -/
def jsEntries {α : Type} (m : List (Str × α)) : List (Str × α) :=
  ssortAsc (fun p => natOfDigits p.1) (m.filter (fun p => isIndexKey p.1)) ++
    m.filter (fun p => !isIndexKey p.1)

/-- Aggregated information per service code (`cupsCount[c]`,
part_000 line 347). -/
structure CupsInfo where
  count : Nat
  name : Str
  type : Str
deriving DecidableEq

/-- One row of the CUPS ranking (part_000 lines 441-453).  The
demographic fields (`PacienteTop_Nombre/_Sexo/_Edad/_GrupoEtario`) and
the joined date set `PacienteTop_Fechas`, which merely copy or render
roster data for display and are mentioned by no claim, are omitted. -/
structure RankingCupsItem where
  CUPS : Str
  Nombre : Str
  TipoSer : Str
  Cantidad : Nat
  PacienteTop : Str
  PacienteTopCant : Nat
deriving DecidableEq

/-- The set of active service types (part_000 line 339). -/
def activeTypes (metas : List ServiceTypeMeta) : List Str :=
  (metas.filter (fun m => m.active)).map (fun m => m.type)

/-- `filteredRegistros` (part_000 line 340). -/
def filteredRegistros (regs : List RipsRecord) (metas : List ServiceTypeMeta) :
    List RipsRecord :=
  regs.filter (fun r => decide (r.tipo ∈ activeTypes metas))

/-- The `cupsCount` object after the aggregation pass (part_000
lines 370-371), as an insertion-ordered association list. -/
def cupsCountOf (fr : List RipsRecord) : List (Str × CupsInfo) :=
  fr.foldl
    (fun m r =>
      match mapGet m r.cups with
      | none => m ++ [(r.cups, ⟨1, r.nombre, r.tipo⟩)]
      | some i => mapSet m r.cups ⟨i.count + 1, i.name, i.type⟩)
    []

/-- The `cupsPacCount` nested object (part_000 lines 374-375). -/
def cupsPacOf (fr : List RipsRecord) : List (Str × List (Str × Nat)) :=
  fr.foldl
    (fun m r =>
      let inner := (mapGet m r.cups).getD []
      let c := ((mapGet inner r.paciente).getD 0) + 1
      mapSet m r.cups (mapSet inner r.paciente c))
    []

/-- The rows of `rankingCUPS` before the final sort (part_000
lines 429-454): one row per entry of `Object.entries(cupsCount)`, with
the top patient taken as the head of the stable descending sort of
`Object.entries(cupsPacCount[code])`. -/
def rankingRows (regs : List RipsRecord) (metas : List ServiceTypeMeta) :
    List RankingCupsItem :=
  let fr := filteredRegistros regs metas
  let cc := cupsCountOf fr
  let cpc := cupsPacOf fr
  (jsEntries cc).map
    (fun p =>
      let pacs := (mapGet cpc p.1).getD []
      let top := (ssortDesc (fun q => q.2) (jsEntries pacs)).head?
      ⟨p.1, p.2.name, p.2.type, p.2.count,
       (top.map (fun q => q.1)).getD [], (top.map (fun q => q.2)).getD 0⟩)

/-- `rankingCUPS` (part_000 lines 429-455): the rows, stably sorted by
total count descending. -/
def rankingCUPS (regs : List RipsRecord) (metas : List ServiceTypeMeta) :
    List RankingCupsItem :=
  ssortDesc (fun it => it.Cantidad) (rankingRows regs metas)

/-! ### Duplicate removal (part_000 lines 165-184) -/

/-- The string key `${r.paciente}|${r.cups}|${r.fecha}` used by the
duplicate audit and remediation. -/
def dupKey (r : RipsRecord) : Str :=
  r.paciente ++ '|' :: r.cups ++ '|' :: r.fecha

/-- The triple the specification declares as the duplicate key. -/
def tripleOf (r : RipsRecord) : Str × Str × Str :=
  (r.paciente, r.cups, r.fecha)

/-- The `seen`-set filter loop of `handleRemoveAllDuplicates`
(part_000 lines 168-179): keep a record when its key is fresh,
otherwise drop it and count it. -/
def goDedup (seen : List Str) : List RipsRecord → List RipsRecord × Nat
  | [] => ([], 0)
  | r :: rs =>
    if dupKey r ∈ seen then
      let p := goDedup seen rs
      (p.1, p.2 + 1)
    else
      let p := goDedup (dupKey r :: seen) rs
      (r :: p.1, p.2)

/-- `handleRemoveAllDuplicates` (part_000 lines 165-184): the new
record list and the reported `removedCount`. -/
def handleRemoveAllDuplicates (regs : List RipsRecord) : List RipsRecord × Nat :=
  goDedup [] regs

/-- Modelled from the spec: "scan the full record list once in order,
keep the first occurrence of every (patientId, serviceCode,
serviceDate) key, drop every later occurrence; report total removed" —
the same scan, but keyed by the literal triple instead of the
pipe-joined string. -/
def goDedupTriple (seen : List (Str × Str × Str)) :
    List RipsRecord → List RipsRecord × Nat
  | [] => ([], 0)
  | r :: rs =>
    if tripleOf r ∈ seen then
      let p := goDedupTriple seen rs
      (p.1, p.2 + 1)
    else
      let p := goDedupTriple (tripleOf r :: seen) rs
      (r :: p.1, p.2)

/-- Modelled from the spec; see `goDedupTriple`. -/
def removeAllDupByTriple (regs : List RipsRecord) : List RipsRecord × Nat :=
  goDedupTriple [] regs

/-- No field of the record contains the pipe character (true of every
record the extractor can produce: `normalizeId` output and `SIN_ID`,
a six-digit code, and a date-pattern match contain no `|`). -/
def pipeFree (r : RipsRecord) : Prop :=
  ¬ '|' ∈ r.paciente ∧ ¬ '|' ∈ r.cups ∧ ¬ '|' ∈ r.fecha

/-! ### The alternate classifier variant (src/App.tsx lines 131-146)

The variant in src/App.tsx recognises an explicit section marker
`/°----\s*ARCHIVO-([A-ZÁÉÍÓÚÑ_ ]+)\s*----°\|/i` and sets the section
to the captured name, trimmed and uppercased; it has no
"USUARIOS"-glyph header check.  Only the marker mechanism is embedded
(the claims touch nothing else of the variant).  The matcher below
takes the capture as the maximal run of name-class characters, which
agrees with the greedy/backtracking behaviour whenever the name
consists of letters, underscores and spaces (`-` is outside the class,
so the engine can never give characters back successfully). -/

/-- Character class `[A-ZÁÉÍÓÚÑ_ ]` under the `/i` flag. -/
def isSecNameChar (c : Char) : Bool :=
  decide ((65 ≤ c.toNat ∧ c.toNat ≤ 90) ∨ (97 ≤ c.toNat ∧ c.toNat ≤ 122)) ||
  c = '_' || c = ' ' ||
  c = 'Á' || c = 'É' || c = 'Í' || c = 'Ó' || c = 'Ú' || c = 'Ñ' ||
  c = 'á' || c = 'é' || c = 'í' || c = 'ó' || c = 'ú' || c = 'ñ'

/-- Case-insensitive literal match of "ARCHIVO", returning the rest. -/
def chompArchivo (s : Str) : Option Str :=
  match s with
  | a :: r :: c :: h :: i :: v :: o :: t =>
    if ciIs a 'A' 'a' && ciIs r 'R' 'r' && ciIs c 'C' 'c' && ciIs h 'H' 'h' &&
       ciIs i 'I' 'i' && ciIs v 'V' 'v' && ciIs o 'O' 'o' then some t else none
  | _ => none

/-- Match attempt of the `rxSec` marker regex at one position,
returning the captured group. -/
def rxSecAt (_p : Option Char) (s : Str) : Option Str :=
  match s with
  | '°' :: '-' :: '-' :: '-' :: '-' :: r1 =>
    match chompArchivo (r1.dropWhile isJsSpace) with
    | none => none
    | some r3 =>
      match r3 with
      | '-' :: r4 =>
        let nm := r4.takeWhile isSecNameChar
        if nm = [] then none
        else
          match (r4.drop nm.length).dropWhile isJsSpace with
          | '-' :: '-' :: '-' :: '-' :: '°' :: '|' :: _ => some nm
          | _ => none
      | _ => none
  | _ => none

/-- `l.match(rxSec)` of src/App.tsx line 142, first match. -/
def rxSecFind (l : Str) : Option Str := scanM rxSecAt none l

/-- The section update of src/App.tsx lines 142-146: on a marker match
the section becomes the capture, trimmed and uppercased, and the line
is discarded; otherwise the section is untouched. -/
def appApplySec (sec l : Str) : Str :=
  match rxSecFind l with
  | some nm => jsToUpperStr (jsTrim nm)
  | none => sec

/-! ## Helper lemmas -/

theorem charOfNat_toNat (n : Nat) (h : n.isValidChar) : (Char.ofNat n).toNat = n := by
  unfold Char.ofNat
  rw [dif_pos h]
  rfl

theorem jsToUpperChar_toNat (c : Char) :
    (jsToUpperChar c).toNat =
      if 97 ≤ c.toNat ∧ c.toNat ≤ 122 then c.toNat - 32 else c.toNat := by
  unfold jsToUpperChar
  by_cases h : 97 ≤ c.toNat ∧ c.toNat ≤ 122
  · rw [if_pos h, if_pos h, charOfNat_toNat]
    exact Or.inl (by omega)
  · rw [if_neg h, if_neg h]

theorem jsToUpperChar_eq_self (c : Char) (h : ¬ (97 ≤ c.toNat ∧ c.toNat ≤ 122)) :
    jsToUpperChar c = c := by
  unfold jsToUpperChar
  rw [if_neg h]

theorem jsToUpperChar_idem (c : Char) :
    jsToUpperChar (jsToUpperChar c) = jsToUpperChar c := by
  have h := jsToUpperChar_toNat c
  by_cases hc : 97 ≤ c.toNat ∧ c.toNat ≤ 122
  · apply jsToUpperChar_eq_self
    rw [h, if_pos hc]
    omega
  · rw [jsToUpperChar_eq_self c hc, jsToUpperChar_eq_self c hc]

theorem isAlnumB_toNat (c : Char) :
    isAlnumB c = true ↔
      ((48 ≤ c.toNat ∧ c.toNat ≤ 57) ∨ (65 ≤ c.toNat ∧ c.toNat ≤ 90)
        ∨ (97 ≤ c.toNat ∧ c.toNat ≤ 122)) := by
  simp [isAlnumB]

theorem isAlnumB_upper (c : Char) (h : isAlnumB c = true) :
    isAlnumB (jsToUpperChar c) = true := by
  rw [isAlnumB_toNat] at h ⊢
  rw [jsToUpperChar_toNat]
  by_cases hc : 97 ≤ c.toNat ∧ c.toNat ≤ 122 <;> [rw [if_pos hc]; rw [if_neg hc]] <;> omega

theorem isAlnumB_not_space (c : Char) (h : isAlnumB c = true) :
    isJsSpace c = false := by
  rw [isAlnumB_toNat] at h
  simp only [isJsSpace, decide_eq_false_iff_not]
  omega

theorem isDigitB_toNat (c : Char) :
    isDigitB c = true ↔ (48 ≤ c.toNat ∧ c.toNat ≤ 57) := by
  simp [isDigitB]

theorem jsToUpperChar_digit (c : Char) (h : isDigitB c = true) :
    jsToUpperChar c = c := by
  rw [isDigitB_toNat] at h
  exact jsToUpperChar_eq_self c (by omega)

theorem isDigitB_not_space (c : Char) (h : isDigitB c = true) :
    isJsSpace c = false := by
  rw [isDigitB_toNat] at h
  simp only [isJsSpace, decide_eq_false_iff_not]
  omega

theorem isDigitB_isAlnumB (c : Char) (h : isDigitB c = true) :
    isAlnumB c = true := by
  rw [isDigitB_toNat] at h
  rw [isAlnumB_toNat]
  omega

/-- The first character of a document-type code is a letter, never a
digit. -/
theorem docPair_not_digit (c1 c2 : Char) (h : docPair c1 c2 = true) :
    isDigitB c1 = false := by
  have hc : c1 = 'C' ∨ c1 = 'c' ∨ c1 = 'T' ∨ c1 = 't' ∨ c1 = 'R' ∨ c1 = 'r' ∨
      c1 = 'P' ∨ c1 = 'p' ∨ c1 = 'M' ∨ c1 = 'm' := by
    simp only [docPair, ciIs, Bool.or_eq_true, Bool.and_eq_true, decide_eq_true_eq] at h
    tauto
  rcases hc with rfl | rfl | rfl | rfl | rfl | rfl | rfl | rfl | rfl | rfl <;> decide

theorem dropWhile_eq_self_of_all {p : Char → Bool} {s : Str}
    (h : ∀ c ∈ s, p c = false) : s.dropWhile p = s := by
  cases s with
  | nil => rfl
  | cons c t =>
    rw [List.dropWhile_cons_of_neg]
    simp [h c (by simp)]

theorem jsTrim_eq_self {s : Str} (h : ∀ c ∈ s, isJsSpace c = false) :
    jsTrim s = s := by
  unfold jsTrim
  rw [dropWhile_eq_self_of_all h, dropWhile_eq_self_of_all, List.reverse_reverse]
  intro c hc
  exact h c (by simpa using hc)

theorem stripDocCode_eq_self {s : Str} (h : docPairLeads s = false) :
    stripDocCode s = s := by
  match s with
  | [] => rfl
  | [c] => rfl
  | c1 :: c2 :: rest =>
    simp only [docPairLeads] at h
    simp [stripDocCode, h]

theorem map_eq_self_of_all {f : Char → Char} {s : Str}
    (h : ∀ c ∈ s, f c = c) : s.map f = s := by
  induction s with
  | nil => rfl
  | cons c t ih =>
    simp only [List.map_cons, h c (by simp)]
    rw [ih (fun x hx => h x (by simp [hx]))]

/-! ## Claims -/

/-! ### C1: idempotence of `normalizeId` -/

/-- C1 counterexample: `normalizeId` is not idempotent on every input.
Stripping one document-type code can expose another:
`normalizeId "CCCC123" = "CC123"` but `normalizeId "CC123" = "123"`. -/
theorem normalizeId_not_idempotent_cex :
    ¬ normalizeId (normalizeId "CCCC123".data) = normalizeId "CCCC123".data ∧
      normalizeId "CCCC123".data = "CC123".data ∧
      normalizeId "CC123".data = "123".data := by
  refine ⟨by decide, by decide, by decide⟩

/-- C1 (amended): `normalizeId` is idempotent on every input whose
normalised form does not itself begin with one of the document-type
codes CC/TI/RC/CE/PA/PE/CN/MS (in particular on every input that
normalises to a digit string), and
`normalizeId "cc-123.456" = normalizeId "123456" = "123456"`. -/
theorem normalizeId_idempotent_amended :
    (∀ v : Str, docPairLeads (normalizeId v) = false →
        normalizeId (normalizeId v) = normalizeId v) ∧
    normalizeId "cc-123.456".data = "123456".data ∧
    normalizeId "123456".data = "123456".data := by
  refine ⟨?_, by decide, by decide⟩
  intro v h
  have hmem : ∀ c ∈ normalizeId v, isAlnumB c = true ∧ jsToUpperChar c = c := by
    intro c hc
    unfold normalizeId at hc
    rcases List.mem_map.mp hc with ⟨c0, hc0, rfl⟩
    have ha : isAlnumB c0 = true := List.of_mem_filter hc0
    exact ⟨isAlnumB_upper c0 ha, jsToUpperChar_idem c0⟩
  have key : ∀ t : Str, docPairLeads t = false →
      (∀ c ∈ t, isAlnumB c = true ∧ jsToUpperChar c = c) → normalizeId t = t := by
    intro t h1 h2
    unfold normalizeId
    rw [jsTrim_eq_self (fun c hc => isAlnumB_not_space c (h2 c hc).1),
        stripDocCode_eq_self h1,
        List.filter_eq_self.mpr (fun c hc => (h2 c hc).1),
        map_eq_self_of_all (fun c hc => (h2 c hc).2)]
  exact key (normalizeId v) h hmem

/-- C1 amended, witness at `v = "cc-123.456"`. -/
theorem normalizeId_idempotent_amended_w :
    normalizeId (normalizeId "cc-123.456".data) = normalizeId "cc-123.456".data :=
  normalizeId_idempotent_amended.1 "cc-123.456".data (by decide)

/-! ### C2: batch atomicity -/

/-- C2 counterexample: with one catalog row and a RIPS file whose read
fails, the batch leaves the record list and roster untouched but has
already committed the new catalog map (`setMaestro` runs before the
file loop), so not every component of the committed state equals its
value before the batch. -/
theorem processFiles_atomicity_cex :
    ¬ (processFiles ⟨[⟨"100001".data, "1".data, "T".data, "N".data, []⟩], [], []⟩
          (.ok [⟨"100001".data, "T".data, "N".data⟩]) [.error ()]).maestro = [] ∧
    (processFiles ⟨[⟨"100001".data, "1".data, "T".data, "N".data, []⟩], [], []⟩
        (.ok [⟨"100001".data, "T".data, "N".data⟩]) [.error ()]).registros =
      [⟨"100001".data, "1".data, "T".data, "N".data, []⟩] ∧
    (processFiles ⟨[⟨"100001".data, "1".data, "T".data, "N".data, []⟩], [], []⟩
        (.ok [⟨"100001".data, "T".data, "N".data⟩]) [.error ()]).usuarios = [] := by
  refine ⟨by decide, by decide, by decide⟩

/-- C2 (amended): the service-record list and the patient roster are
atomic — a failed catalog parse leaves the whole committed state
unchanged, and a failure while reading any RIPS file leaves the record
list and roster at their previous values — but the catalog map is
committed as soon as the catalog parses, so after a file-read failure
the committed state carries the new catalog with the old records and
roster. -/
theorem processFiles_atomicity_amended :
    (∀ (init : Committed) (files : List (Except Unit FileInput)),
        processFiles init (.error ()) files = init) ∧
    (∀ (init : Committed) (rows : List CatRow) (files : List (Except Unit FileInput))
        (e : Unit),
        processFilesGo (buildCupsMap rows) init.usuarios [] files = .error e →
        processFiles init (.ok rows) files =
          ⟨init.registros, init.usuarios, buildCupsMap rows⟩) := by
  constructor
  · intro init files
    rfl
  · intro init rows files e h
    simp only [processFiles, h]

/-- C2 amended, witness: a concrete failing file list. -/
theorem processFiles_atomicity_amended_w :
    processFiles ⟨[⟨"100001".data, "1".data, "T".data, "N".data, []⟩], [], []⟩
        (.ok [⟨"100001".data, "T".data, "N".data⟩]) [.error ()] =
      ⟨[⟨"100001".data, "1".data, "T".data, "N".data, []⟩], [],
       buildCupsMap [⟨"100001".data, "T".data, "N".data⟩]⟩ :=
  processFiles_atomicity_amended.2
    ⟨[⟨"100001".data, "1".data, "T".data, "N".data, []⟩], [], []⟩
    [⟨"100001".data, "T".data, "N".data⟩] [.error ()] () (by rfl)

/-! ### C7: age bracket -/

/-- C7: for every parsable, non-future birth date the bracket is
"PRIMERA INFANCIA (0m-5a)" exactly when the coarse month difference
(year*12 + month deltas, not day-aware) is at most 60; otherwise it is
determined by the calendar-aware year difference through the
thresholds 11, 17, 28, 59; empty or unparsable input yields "". -/
theorem grupoEtario_bracket :
    (∀ (now : SimpleDate) (fn : Str) (f : SimpleDate),
        parseISO fn = some f → notFuture f now →
        ((grupoEtarioDesdeFN now fn = strPRIMERA ↔ mesesOf now f ≤ 60) ∧
         (¬ mesesOf now f ≤ 60 →
            grupoEtarioDesdeFN now fn =
              (if aniosOf now f ≤ 11 then strINFANCIA
               else if aniosOf now f ≤ 17 then strADOLESC
               else if aniosOf now f ≤ 28 then strJOVENES
               else if aniosOf now f ≤ 59 then strADULTEZ
               else strVEJEZ)))) ∧
    (∀ (now : SimpleDate) (fn : Str),
        parseISO fn = none → grupoEtarioDesdeFN now fn = []) := by
  constructor
  · intro now fn f hp _hfut
    have hfn : ¬ fn = [] := by
      intro h
      rw [h] at hp
      simp [parseISO] at hp
    have hm : edadMeses now fn = some (mesesOf now f) := by
      unfold edadMeses
      rw [if_neg hfn, hp]
    have ha : edadAnios now fn = some (aniosOf now f) := by
      unfold edadAnios
      rw [if_neg hfn, hp]
    have key : grupoEtarioDesdeFN now fn =
        (if mesesOf now f ≤ 60 then strPRIMERA
         else if aniosOf now f ≤ 11 then strINFANCIA
         else if aniosOf now f ≤ 17 then strADOLESC
         else if aniosOf now f ≤ 28 then strJOVENES
         else if aniosOf now f ≤ 59 then strADULTEZ
         else strVEJEZ) := by
      unfold grupoEtarioDesdeFN
      rw [if_neg hfn, hm, ha]
    rw [key]
    constructor
    · by_cases h60 : mesesOf now f ≤ 60
      · simp [h60]
      · rw [if_neg h60]
        simp only [h60, iff_false]
        split <;> first | decide | (split <;> first | decide | (split <;> first | decide | (split <;> decide)))
    · intro h60
      rw [if_neg h60]
  · intro now fn hp
    unfold grupoEtarioDesdeFN
    by_cases hfn : fn = []
    · rw [if_pos hfn]
    · rw [if_neg hfn]
      unfold edadMeses edadAnios
      rw [if_neg hfn, hp]

/-- C7 witness: birth date exactly 60 coarse months before "now". -/
theorem grupoEtario_bracket_w :
    grupoEtarioDesdeFN ⟨2026, 10, 11⟩ "2021-10-11".data = strPRIMERA :=
  ((grupoEtario_bracket.1 ⟨2026, 10, 11⟩ "2021-10-11".data ⟨2021, 10, 11⟩
      (by decide) (by decide)).1).mpr (by decide)

/-! ### C6: per-field roster merge -/

/-- C6: roster merge is per-field replace-if-non-empty.  For an id
already present (with arbitrary previous record `prev`):
a line with empty sex and empty birth date but a non-empty name keeps
`prev.sexo` and `prev.fnac` and replaces the name; a line with all
three extracted non-empty replaces all three; a line with non-empty
sex/date but no name candidate replaces those two and keeps
`prev.nombre`.  Finally, ingesting the two concrete roster lines
`X|123456|M|JUAN PEREZ` then `Y|123456||PEDRO GOMEZ` into an empty
roster yields the first line's sex with the second line's name. -/
theorem roster_merge_per_field :
    (∀ (rest : UsersMap) (prev : UserRecord) (regs : List RipsRecord) (cups : CupsMap),
        processLine cups ⟨strUSUARIOS, ("123456".data, prev) :: rest, regs⟩
            "Y|123456||PEDRO GOMEZ".data =
          ⟨strUSUARIOS,
           ("123456".data, ⟨"123456".data, prev.sexo, prev.fnac, "PEDRO GOMEZ".data⟩) :: rest,
           regs⟩) ∧
    (∀ (rest : UsersMap) (prev : UserRecord) (regs : List RipsRecord) (cups : CupsMap),
        processLine cups ⟨strUSUARIOS, ("123456".data, prev) :: rest, regs⟩
            "X|123456|M|1999-05-05|JUAN ROJAS".data =
          ⟨strUSUARIOS,
           ("123456".data,
            ⟨"123456".data, "M".data, "1999-05-05".data, "JUAN ROJAS".data⟩) :: rest,
           regs⟩) ∧
    (∀ (rest : UsersMap) (prev : UserRecord) (regs : List RipsRecord) (cups : CupsMap),
        processLine cups ⟨strUSUARIOS, ("123456".data, prev) :: rest, regs⟩
            "9|123456|F|2020-01-01".data =
          ⟨strUSUARIOS,
           ("123456".data, ⟨"123456".data, "F".data, "2020-01-01".data, prev.nombre⟩) :: rest,
           regs⟩) ∧
    (∀ cups : CupsMap,
        processLines cups ⟨strUSUARIOS, [], []⟩
            ["X|123456|M|JUAN PEREZ".data, "Y|123456||PEDRO GOMEZ".data] =
          ⟨strUSUARIOS,
           [("123456".data, ⟨"123456".data, "M".data, [], "PEDRO GOMEZ".data⟩)],
           []⟩) := by
  refine ⟨fun rest prev regs cups => rfl, fun rest prev regs cups => rfl,
          fun rest prev regs cups => rfl, fun cups => rfl⟩

/-! ### C5: the two section-switching mechanisms -/

theorem scanM_cons_some {α : Type} (tA : Option Char → Str → Option α)
    (p : Option Char) (c : Char) (t : Str) (r : α)
    (h : tA p (c :: t) = some r) : scanM tA p (c :: t) = some r := by
  unfold scanM
  rw [h]

theorem takeWhile_append_all {p : Char → Bool} {xs : Str} (ys : Str)
    (h : ∀ c ∈ xs, p c = true) :
    (xs ++ ys).takeWhile p = xs ++ ys.takeWhile p := by
  induction xs with
  | nil => simp
  | cons c t ih =>
    simp only [List.cons_append, List.takeWhile_cons, h c (by simp), if_true]
    rw [ih (fun x hx => h x (by simp [hx]))]

/-- The explicit marker line `°----ARCHIVO-<name>----°|`. -/
def markerL (name : Str) : Str :=
  '°' :: '-' :: '-' :: '-' :: '-' :: 'A' :: 'R' :: 'C' :: 'H' :: 'I' :: 'V' :: 'O' :: '-' ::
    (name ++ (['-', '-', '-', '-', '°', '|'] : Str))

/-- C5 counterexample: the main classifier (part_000) does not support
the explicit-marker mechanism.  The marker line `°----ARCHIVO-AC----°|`
leaves its state completely unchanged — in particular the section does
not become "AC" as the claim requires. -/
theorem section_marker_mechanisms_cex :
    processLine [] ⟨[], [], []⟩ "°----ARCHIVO-AC----°|".data = ⟨[], [], []⟩ ∧
    ¬ (processLine [] ⟨[], [], []⟩ "°----ARCHIVO-AC----°|".data).sec = "AC".data := by
  refine ⟨by decide, by decide⟩

/-- C5 (amended): the two mechanisms live in different classifier
variants.  (a) In the main classifier (part_000), every line whose
uppercased trim contains "USUARIOS" together with one of the glyphs
`*`, `°`, `-` switches the section to roster and is discarded (state
otherwise untouched).  (b) In the alternate variant (src/App.tsx), a
marker line `°----ARCHIVO-<name>----°|` sets the section to the name
(trimmed, uppercased); shown here for every non-empty name of
uppercase ASCII letters.  Neither classifier supports both mechanisms:
part_000 ignores the marker (see the counterexample), and the App.tsx
variant has no "USUARIOS"-glyph check. -/
theorem section_marker_mechanisms_amended :
    (∀ (cups : CupsMap) (st : LineState) (raw : Str),
        ¬ jsTrim raw = [] →
        isUserHeader (jsToUpperStr (jsTrim raw)) = true →
        processLine cups st raw = ⟨strUSUARIOS, st.users, st.regs⟩) ∧
    (∀ (sec name : Str), ¬ name = [] →
        (∀ c ∈ name, 65 ≤ c.toNat ∧ c.toNat ≤ 90) →
        appApplySec sec (markerL name) = name) := by
  constructor
  · intro cups st raw h0 h1
    simp only [processLine]
    rw [if_neg h0, if_pos h1]
  · intro sec name h0 h1
    have hname : ∀ c ∈ name, isSecNameChar c = true := by
      intro c hc
      have hb := h1 c hc
      simp only [isSecNameChar, Bool.or_eq_true, decide_eq_true_eq]
      tauto
    have e3 : (name ++ (['-', '-', '-', '-', '°', '|'] : Str)).takeWhile isSecNameChar
        = name := by
      rw [takeWhile_append_all _ hname, List.takeWhile_cons, if_neg (by decide)]
      exact List.append_nil name
    have e4 : ((name ++ (['-', '-', '-', '-', '°', '|'] : Str)).drop name.length) =
        (['-', '-', '-', '-', '°', '|'] : Str) := List.drop_left name _
    have hAt : rxSecAt none ('°' :: '-' :: '-' :: '-' :: '-' ::
        'A' :: 'R' :: 'C' :: 'H' :: 'I' :: 'V' :: 'O' :: '-' ::
        (name ++ (['-', '-', '-', '-', '°', '|'] : Str))) = some name := by
      simp only [rxSecAt]
      rw [List.dropWhile_cons_of_neg (by decide)]
      simp only [chompArchivo]
      rw [if_pos (by decide)]
      simp only [e3, e4]
      rw [if_neg h0]
      rfl
    have hfind : rxSecFind (markerL name) = some name := by
      unfold rxSecFind
      rw [show markerL name = ('°' :: '-' :: '-' :: '-' :: '-' ::
        'A' :: 'R' :: 'C' :: 'H' :: 'I' :: 'V' :: 'O' :: '-' ::
        (name ++ (['-', '-', '-', '-', '°', '|'] : Str))) from rfl]
      exact scanM_cons_some _ _ _ _ _ hAt
    unfold appApplySec
    rw [hfind]
    show jsToUpperStr (jsTrim name) = name
    rw [jsTrim_eq_self (fun c hc => by
          have := h1 c hc
          simp only [isJsSpace, decide_eq_false_iff_not]
          omega)]
    exact map_eq_self_of_all (fun c hc => jsToUpperChar_eq_self c (by
      have := h1 c hc
      omega))

/-- C5 amended, witness: the glyph header on a concrete line, and the
marker for the concrete name "AC". -/
theorem section_marker_mechanisms_amended_w :
    processLine [] ⟨[], [], []⟩ "** USUARIOS **".data = ⟨strUSUARIOS, [], []⟩ ∧
    appApplySec strSERVICIOS (markerL "AC".data) = "AC".data :=
  ⟨section_marker_mechanisms_amended.1 [] ⟨[], [], []⟩ "** USUARIOS **".data
      (by decide) (by decide),
   section_marker_mechanisms_amended.2 strSERVICIOS "AC".data (by decide) (by decide)⟩

/-! ### C4: the content-heuristic override -/

theorem procRoster_sec (users : UsersMap) (regs : List RipsRecord) (sec : Str)
    (parts : List Str) : (procRoster users regs sec parts).sec = sec := by
  simp only [procRoster]
  split <;> split <;> rfl

/-- C4 counterexample: the override is not per-line.  With the catalog
containing code 100001 and the section "SERVICIOS", the overriding line
`JUAN PEREZ|123456789|M|2020-01-01` (date + standalone M) followed by
the plain service line `100001|999888777` (matches neither pattern, no
header marker) produces NO service record — the second line is consumed
by the roster branch — whereas the same service line alone produces one
record.  The claim demands that the second line's classification be
unaffected by the overriding line. -/
theorem heuristic_override_per_line_cex :
    (processLines [("100001".data, ⟨"100001".data, "T".data, "N".data⟩)]
        ⟨strSERVICIOS, [], []⟩
        ["JUAN PEREZ|123456789|M|2020-01-01".data, "100001|999888777".data]).regs = [] ∧
    (processLines [("100001".data, ⟨"100001".data, "T".data, "N".data⟩)]
        ⟨strSERVICIOS, [], []⟩ ["100001|999888777".data]).regs =
      [⟨"100001".data, "100001".data, "T".data, "N".data, []⟩] := by
  refine ⟨by decide, by decide⟩

/-- C4 (amended): the content heuristic is persistent, not per-line.
When the section is not roster and a line (non-empty after trim, no
header marker, a usable separator with at least 2 fields) matches both
the date pattern and a standalone M/F token, the assignment
`section = "USUARIOS"` is stored in the loop state, so the roster
section remains in force for all subsequent lines until something else
changes it. -/
theorem heuristic_override_amended :
    ∀ (cups : CupsMap) (users : UsersMap) (regs : List RipsRecord) (raw : Str)
      (parts : List Str),
      ¬ jsTrim raw = [] →
      isUserHeader (jsToUpperStr (jsTrim raw)) = false →
      isServiceHeader (jsToUpperStr (jsTrim raw)) = false →
      sepSplit (jsTrim raw) = some parts →
      ¬ parts.length < 2 →
      hasDatePattern (jsTrim raw) = true →
      hasSexTok (jsTrim raw) = true →
      (processLine cups ⟨strSERVICIOS, users, regs⟩ raw).sec = strUSUARIOS := by
  intro cups users regs raw parts h0 h1 h2 h3 h4 h5 h6
  have hss : ¬ strSERVICIOS = strUSUARIOS := by decide
  have hcon : strContains strUSUARIOS strUSUARIOS = true := by decide
  simp only [processLine, h0, h1, h2, h3, h4, h5, h6, hss, hcon,
    if_false, if_true, not_false_iff, and_true, true_and, if_pos, Bool.false_eq_true,
    ite_false, ite_true]
  exact procRoster_sec users regs strUSUARIOS parts

/-- C4 amended, witness at the concrete overriding line. -/
theorem heuristic_override_amended_w :
    (processLine [] ⟨strSERVICIOS, [], []⟩
        "JUAN PEREZ|123456789|M|2020-01-01".data).sec = strUSUARIOS :=
  heuristic_override_amended [] [] [] "JUAN PEREZ|123456789|M|2020-01-01".data
    ["JUAN PEREZ".data, "123456789".data, "M".data, "2020-01-01".data]
    (by decide) (by decide) (by decide) (by decide) (by decide) (by decide) (by decide)

/-! ### C9: the "SIN_ID" placeholder branch is unreachable -/

/-- Non-empty string of digits. -/
def allDigitsNE (t : Str) : Prop := ¬ t = [] ∧ ∀ c ∈ t, isDigitB c = true

/-- The shape of every token the patient-identifier regex can return:
either bare digits, or a document-type code followed by an optional
dash and digits. -/
def patTokShape (t : Str) : Prop :=
  allDigitsNE t ∨ ∃ c1 c2 rest, t = c1 :: c2 :: rest ∧ docPair c1 c2 = true ∧
    (allDigitsNE rest ∨ ∃ r2, rest = '-' :: r2 ∧ allDigitsNE r2)

theorem scanM_cons_eq {α : Type} (tA : Option Char → Str → Option α)
    (p : Option Char) (c : Char) (t : Str) :
    scanM tA p (c :: t) =
      match tA p (c :: t) with
      | some r => some r
      | none => scanM tA (some c) t := rfl

theorem scanM_isSome_mono {α β : Type} (tA : Option Char → Str → Option α)
    (tB : Option Char → Str → Option β)
    (h : ∀ p s, (tA p s).isSome → (tB p s).isSome) :
    ∀ (p : Option Char) (l : Str), (scanM tA p l).isSome → (scanM tB p l).isSome := by
  intro p l
  induction l generalizing p with
  | nil => exact fun hs => h p [] hs
  | cons c t ih =>
    intro hs
    rw [scanM_cons_eq] at hs
    rw [scanM_cons_eq]
    cases hA : tA p (c :: t) with
    | some r =>
      rcases Option.isSome_iff_exists.mp (h p (c :: t) (by rw [hA]; rfl)) with ⟨r2, hB⟩
      rw [hB]
      rfl
    | none =>
      rw [hA] at hs
      have h2 := ih (some c) hs
      cases hB : tB p (c :: t) with
      | some r2 => rfl
      | none => exact h2

theorem scanM_forall {α : Type} (tA : Option Char → Str → Option α) (P : α → Prop)
    (h : ∀ p s r, tA p s = some r → P r) :
    ∀ (p : Option Char) (l : Str) (r : α), scanM tA p l = some r → P r := by
  intro p l
  induction l generalizing p with
  | nil => exact fun r hr => h p [] r hr
  | cons c t ih =>
    intro r hr
    rw [scanM_cons_eq] at hr
    cases hA : tA p (c :: t) with
    | some r2 =>
      rw [hA] at hr
      have hr2 : (some r2 : Option α) = some r := hr
      obtain rfl : r2 = r := Option.some.inj hr2
      exact h p (c :: t) _ hA
    | none =>
      rw [hA] at hr
      exact ih (some c) r hr

theorem sixAt_isSome_patAt (p : Option Char) (s : Str)
    (h : (sixAt p s).isSome) : (patAt p s).isSome := by
  simp only [sixAt] at h
  split at h
  case isTrue hcond =>
    simp only [Bool.and_eq_true, decide_eq_true_eq] at hcond
    obtain ⟨⟨hb, h6⟩, hbr⟩ := hcond
    unfold patAt
    rw [if_pos hb]
    cases hd : patDocAt s with
    | some t => rfl
    | none =>
      simp only [patBareAt, h6, hbr]
      simp
  case isFalse => simp at h

theorem matchSix_to_findPat (l : Str) (h : (matchSixDigit l).isSome) :
    (findPatientTok l).isSome :=
  scanM_isSome_mono sixAt patAt sixAt_isSome_patAt none l h

theorem digitRun_all (s : Str) : ∀ c ∈ digitRun s, isDigitB c = true :=
  fun _ hc => List.mem_takeWhile_imp hc

theorem patAt_shape (p : Option Char) (s : Str) (r : Str)
    (h : patAt p s = some r) : patTokShape r := by
  unfold patAt at h
  by_cases hb : boundaryL p = true
  · rw [if_pos hb] at h
    cases hd : patDocAt s with
    | some t =>
      rw [hd] at h
      obtain rfl := Option.some.inj h
      right
      rcases s with _ | ⟨c1, s1⟩
      · exact Option.noConfusion hd
      rcases s1 with _ | ⟨c2, rest⟩
      · exact Option.noConfusion hd
      simp only [patDocAt] at hd
      by_cases hdp : docPair c1 c2 = true
      · rw [if_pos hdp] at hd
        by_cases hdash : rest.head? = some '-'
        · rw [if_pos hdash] at hd
          split at hd
          · rename_i hcond
            simp only [Bool.and_eq_true, decide_eq_true_eq] at hcond
            obtain rfl := Option.some.inj hd
            refine ⟨c1, c2, '-' :: digitRun rest.tail, rfl, hdp,
              Or.inr ⟨digitRun rest.tail, rfl, ?_, digitRun_all rest.tail⟩⟩
            intro hnil
            have h4 := hcond.1.1
            rw [hnil] at h4
            simp at h4
          · exact absurd hd (by simp)
        · rw [if_neg hdash] at hd
          split at hd
          · rename_i hcond
            simp only [Bool.and_eq_true, decide_eq_true_eq] at hcond
            obtain rfl := Option.some.inj hd
            refine ⟨c1, c2, digitRun rest, rfl, hdp,
              Or.inl ⟨?_, digitRun_all rest⟩⟩
            intro hnil
            have h4 := hcond.1.1
            rw [hnil] at h4
            simp at h4
          · exact absurd hd (by simp)
      · rw [if_neg hdp] at hd
        exact absurd hd (by simp)
    | none =>
      rw [hd] at h
      simp only [patBareAt] at h
      split at h
      · rename_i hcond
        simp only [Bool.and_eq_true, decide_eq_true_eq] at hcond
        obtain rfl := Option.some.inj h
        refine Or.inl ⟨?_, digitRun_all s⟩
        intro hnil
        have h6 := hcond.1.1
        rw [hnil] at h6
        simp at h6
      · exact absurd h (by simp)
  · rw [if_neg hb] at h
    exact absurd h (by simp)

theorem docPair_chars (c1 c2 : Char) (h : docPair c1 c2 = true) :
    isJsSpace c1 = false ∧ isJsSpace c2 = false := by
  simp only [docPair, Bool.or_eq_true, Bool.and_eq_true] at h
  rcases h with (((((((h | h) | h) | h) | h) | h) | h) | h) <;>
    · simp only [ciIs, Bool.or_eq_true, decide_eq_true_eq] at h
      obtain ⟨h1, h2⟩ := h
      rcases h1 with rfl | rfl <;> rcases h2 with rfl | rfl <;> exact ⟨by decide, by decide⟩

theorem docPairLeads_digits {t : Str} (h : ∀ c ∈ t, isDigitB c = true) :
    docPairLeads t = false := by
  match t with
  | [] => rfl
  | [c] => rfl
  | c1 :: c2 :: t2 =>
    simp only [docPairLeads]
    by_cases hdp : docPair c1 c2 = true
    · have hd := docPair_not_digit c1 c2 hdp
      rw [h c1 (by simp)] at hd
      exact absurd hd (by simp)
    · simpa using hdp

/-- A bare digit token normalises to itself. -/
theorem normalizeId_digits (t : Str) (h : allDigitsNE t) : normalizeId t = t := by
  obtain ⟨_, hd⟩ := h
  unfold normalizeId
  rw [jsTrim_eq_self (fun c hc => isDigitB_not_space c (hd c hc)),
      stripDocCode_eq_self (docPairLeads_digits hd),
      List.filter_eq_self.mpr (fun c hc => isDigitB_isAlnumB c (hd c hc))]
  exact map_eq_self_of_all (fun c hc => jsToUpperChar_digit c (hd c hc))

/-- The head of a non-empty digit string is neither a dash nor a
whitespace character, so the dash/space eater stops at once. -/
theorem dropDashSpace_digits {t : Str} (h : allDigitsNE t) :
    t.dropWhile (fun c => c = '-' || isJsSpace c) = t := by
  obtain ⟨hne, hd⟩ := h
  match t, hne with
  | c :: t2, _ =>
    rw [List.dropWhile_cons_of_neg]
    have hdig := hd c (by simp)
    rw [isDigitB_toNat] at hdig
    simp only [Bool.or_eq_true, decide_eq_true_eq]
    rintro (rfl | hsp)
    · simp at hdig
    · rw [isJsSpace] at hsp
      simp only [decide_eq_true_eq] at hsp
      omega

/-- Every token of `patTokShape` normalises to a non-empty digit
string. -/
theorem normalizeId_patTok (t : Str) (h : patTokShape t) :
    allDigitsNE (normalizeId t) := by
  rcases h with h | ⟨c1, c2, rest, rfl, hdp, hrest⟩
  · rw [normalizeId_digits t h]
    exact h
  · have htail : ∃ ds : Str, allDigitsNE ds ∧
        rest.dropWhile (fun c => c = '-' || isJsSpace c) = ds := by
      rcases hrest with hdig | ⟨r2, rfl, hdig⟩
      · exact ⟨rest, hdig, dropDashSpace_digits hdig⟩
      · refine ⟨r2, hdig, ?_⟩
        rw [List.dropWhile_cons_of_pos (by decide)]
        exact dropDashSpace_digits hdig
    obtain ⟨ds, hdsd, hdrop⟩ := htail
    have hspace : ∀ c ∈ (c1 :: c2 :: rest : Str), isJsSpace c = false := by
      intro c hc
      rcases List.mem_cons.mp hc with rfl | hc
      · exact (docPair_chars _ c2 hdp).1
      rcases List.mem_cons.mp hc with rfl | hc
      · exact (docPair_chars c1 _ hdp).2
      · rcases hrest with ⟨_, hd⟩ | ⟨r2, rfl, _, hd2⟩
        · exact isDigitB_not_space c (hd c hc)
        · rcases List.mem_cons.mp hc with rfl | hc
          · decide
          · exact isDigitB_not_space c (hd2 c hc)
    unfold normalizeId
    rw [jsTrim_eq_self hspace]
    have hstrip : stripDocCode (c1 :: c2 :: rest) = ds := by
      simp only [stripDocCode]
      rw [if_pos hdp]
      exact hdrop
    rw [hstrip,
        List.filter_eq_self.mpr (fun c hc => isDigitB_isAlnumB c (hdsd.2 c hc)),
        map_eq_self_of_all (fun c hc => jsToUpperChar_digit c (hdsd.2 c hc))]
    exact hdsd

theorem allDigitsNE_ne_SINID (t : Str) (h : allDigitsNE t) : ¬ t = strSINID := by
  intro heq
  have h2 := h.2 'S' (by rw [heq]; decide)
  simp [isDigitB] at h2

/-- Reduction of the service branch once the six-digit regex has
matched. -/
theorem procService_some (cups : CupsMap) (users : UsersMap)
    (regs : List RipsRecord) (sec l : Str) (code : Str)
    (h6 : matchSixDigit l = some code) :
    procService cups users regs sec l =
      (if mapHas cups code then
        ⟨sec, users, regs ++
          [⟨code, jsOr (normalizeId ((findPatientTok l).getD strSINID)) strSINID,
            ((mapGet cups code).getD ⟨[], [], []⟩).tipo,
            ((mapGet cups code).getD ⟨[], [], []⟩).nombre, parseDateFromLine l⟩]⟩
      else ⟨sec, users, regs⟩ : LineState) := by
  unfold procService
  rw [h6]

theorem procService_mem (cups : CupsMap) (users : UsersMap)
    (regs : List RipsRecord) (sec l : Str) (r : RipsRecord)
    (h : r ∈ (procService cups users regs sec l).regs) :
    r ∈ regs ∨ ¬ r.paciente = strSINID := by
  cases h6 : matchSixDigit l with
  | none =>
    unfold procService at h
    rw [h6] at h
    exact Or.inl h
  | some code =>
    rw [procService_some cups users regs sec l code h6] at h
    split at h
    · simp only [List.mem_append, List.mem_singleton] at h
      rcases h with h | rfl
      · exact Or.inl h
      · right
        have hsome : (findPatientTok l).isSome :=
          matchSix_to_findPat l (by rw [h6]; rfl)
        rcases Option.isSome_iff_exists.mp hsome with ⟨tok, htok⟩
        have hshape : patTokShape tok :=
          scanM_forall patAt patTokShape patAt_shape none l tok htok
        have hnd := normalizeId_patTok tok hshape
        simp only [htok, Option.getD_some]
        unfold jsOr
        rw [if_neg hnd.1]
        exact allDigitsNE_ne_SINID _ hnd
    · exact Or.inl h

/-- C9: the extractor never emits a record with the literal "SIN_ID"
patient id.  Every record present after a line step either was already
present or has a patient id different from "SIN_ID": whenever the
six-digit code regex matched, the patient regex matches as well (the
standalone code itself matches the bare-digits alternative), and
`normalizeId` of any token the patient regex can return is a non-empty
digit string. -/
theorem procRoster_regs (us : UsersMap) (rg : List RipsRecord) (se : Str)
    (pa : List Str) : (procRoster us rg se pa).regs = rg := by
  simp only [procRoster]
  split <;> split <;> rfl

theorem service_record_never_SINID (cups : CupsMap) (st : LineState) (raw : Str)
    (r : RipsRecord) (h : r ∈ (processLine cups st raw).regs) :
    r ∈ st.regs ∨ ¬ r.paciente = strSINID := by
  simp only [processLine] at h
  split at h
  · exact Or.inl h
  · split at h
    · exact Or.inl h
    · split at h
      · exact Or.inl h
      · split at h
        · exact Or.inl h
        · split at h
          · exact Or.inl h
          · split at h <;> split at h
            · rw [procRoster_regs] at h
              exact Or.inl h
            · exact procService_mem cups st.users st.regs _ _ r h
            · rw [procRoster_regs] at h
              exact Or.inl h
            · exact procService_mem cups st.users st.regs _ _ r h

/-- C9 witness: a concrete service line emits a record whose patient id
is not "SIN_ID". -/
theorem service_record_never_SINID_w :
    (⟨"100001".data, "100001".data, "T".data, "N".data, []⟩ : RipsRecord) ∈
        (⟨strSERVICIOS, [], []⟩ : LineState).regs ∨
      ¬ (⟨"100001".data, "100001".data, "T".data, "N".data, []⟩ : RipsRecord).paciente
          = strSINID :=
  service_record_never_SINID [("100001".data, ⟨"100001".data, "T".data, "N".data⟩)]
    ⟨strSERVICIOS, [], []⟩ "100001|999888777".data
    ⟨"100001".data, "100001".data, "T".data, "N".data, []⟩ (by decide)

/-! ### C10: idempotence of remove-all-duplicates -/

theorem goDedup_keys (seen : List Str) (l : List RipsRecord) :
    ((goDedup seen l).1.map dupKey).Nodup ∧
      ∀ k ∈ (goDedup seen l).1.map dupKey, ¬ k ∈ seen := by
  induction l generalizing seen with
  | nil => simp [goDedup]
  | cons r rs ih =>
    by_cases hk : dupKey r ∈ seen
    · simp only [goDedup, if_pos hk]
      exact ih seen
    · simp only [goDedup, if_neg hk]
      obtain ⟨hnd, hfresh⟩ := ih (dupKey r :: seen)
      refine ⟨?_, ?_⟩
      · simp only [List.map_cons, List.nodup_cons]
        exact ⟨fun hmem => (hfresh _ hmem) (by simp), hnd⟩
      · intro k hkmem
        simp only [List.map_cons, List.mem_cons] at hkmem
        rcases hkmem with rfl | hkmem
        · exact hk
        · intro hks
          exact hfresh k hkmem (by simp [hks])

theorem goDedup_id (seen : List Str) (l : List RipsRecord)
    (hn : (l.map dupKey).Nodup) (hf : ∀ k ∈ l.map dupKey, ¬ k ∈ seen) :
    goDedup seen l = (l, 0) := by
  induction l generalizing seen with
  | nil => rfl
  | cons r rs ih =>
    have hk : ¬ dupKey r ∈ seen := hf (dupKey r) (by simp)
    simp only [goDedup, if_neg hk]
    simp only [List.map_cons, List.nodup_cons] at hn
    rw [ih (dupKey r :: seen) hn.2]
    intro k hkmem
    simp only [List.mem_cons]
    rintro (rfl | hks)
    · exact hn.1 hkmem
    · exact hf k (by simp [hkmem]) hks

theorem dupKey_congr {a b : RipsRecord} (h : tripleOf a = tripleOf b) :
    dupKey a = dupKey b := by
  unfold tripleOf at h
  simp only [Prod.mk.injEq] at h
  unfold dupKey
  rw [h.1, h.2.1, h.2.2]

/-- C10: remove-all-duplicates is idempotent — re-running it on its own
output returns the same list and reports 0 records removed — and the
output contains at most one record per (patientId, serviceCode,
serviceDate) triple (it is pairwise triple-distinct). -/
theorem removeAllDuplicates_idempotent :
    ∀ regs : List RipsRecord,
      handleRemoveAllDuplicates (handleRemoveAllDuplicates regs).1 =
        ((handleRemoveAllDuplicates regs).1, 0) ∧
      List.Pairwise (fun a b => ¬ tripleOf a = tripleOf b)
        (handleRemoveAllDuplicates regs).1 := by
  intro regs
  obtain ⟨hnd, _⟩ := goDedup_keys [] regs
  constructor
  · exact goDedup_id [] _ hnd (by simp)
  · have hpm : ((handleRemoveAllDuplicates regs).1.map dupKey).Pairwise
        (fun a b => a ≠ b) := hnd
    have hp := List.pairwise_map.mp hpm
    exact hp.imp (fun hne heq => hne (dupKey_congr heq))

/-! ### C8: remove-all-duplicates and the literal triple -/

/-- Splitting at the first pipe is unambiguous when the left parts are
pipe-free. -/
theorem pipe_split_inj {a a2 x x2 : Str} (ha : ¬ '|' ∈ a) (ha2 : ¬ '|' ∈ a2)
    (h : a ++ '|' :: x = a2 ++ '|' :: x2) : a = a2 ∧ x = x2 := by
  induction a generalizing a2 with
  | nil =>
    cases a2 with
    | nil => simpa using h
    | cons c t =>
      simp only [List.nil_append, List.cons_append, List.cons.injEq] at h
      obtain ⟨rfl, -⟩ := h
      exact absurd (List.mem_cons_self _ _) ha2
  | cons c t ih =>
    cases a2 with
    | nil =>
      simp only [List.cons_append, List.nil_append, List.cons.injEq] at h
      obtain ⟨rfl, -⟩ := h
      exact absurd (List.mem_cons_self _ _) ha
    | cons c2 t2 =>
      simp only [List.cons_append, List.cons.injEq] at h
      obtain ⟨rfl, h2⟩ := h
      have ht : ¬ '|' ∈ t := fun hm => ha (by simp [hm])
      have ht2 : ¬ '|' ∈ t2 := fun hm => ha2 (by simp [hm])
      obtain ⟨rfl, hx⟩ := ih ht ht2 h2
      exact ⟨rfl, hx⟩

/-- The pipe-joined key of a triple. -/
def keyT (t : Str × Str × Str) : Str := t.1 ++ '|' :: t.2.1 ++ '|' :: t.2.2

/-- Pipe-freeness of a triple. -/
def pipeFreeT (t : Str × Str × Str) : Prop :=
  ¬ '|' ∈ t.1 ∧ ¬ '|' ∈ t.2.1 ∧ ¬ '|' ∈ t.2.2

instance (r : RipsRecord) : Decidable (pipeFree r) := by
  unfold pipeFree; infer_instance

theorem keyT_inj {t t2 : Str × Str × Str} (ht : pipeFreeT t) (ht2 : pipeFreeT t2)
    (h : keyT t = keyT t2) : t = t2 := by
  obtain ⟨x1, x2, x3⟩ := t
  obtain ⟨y1, y2, y3⟩ := t2
  unfold keyT at h
  simp only [List.append_assoc, List.cons_append] at h
  simp only [pipeFreeT] at ht ht2
  obtain ⟨h1, h2⟩ := pipe_split_inj ht.1 ht2.1 h
  obtain ⟨h3, h4⟩ := pipe_split_inj ht.2.1 ht2.2.1 h2
  simp only [Prod.mk.injEq]
  exact ⟨h1, h3, h4⟩

theorem dupKey_eq_keyT (r : RipsRecord) : dupKey r = keyT (tripleOf r) := rfl

theorem goDedup_triple_eq (l : List RipsRecord) :
    ∀ seenT : List (Str × Str × Str), (∀ t ∈ seenT, pipeFreeT t) →
    (∀ r ∈ l, pipeFree r) →
    goDedup (seenT.map keyT) l = goDedupTriple seenT l := by
  induction l with
  | nil => intro seenT _ _; rfl
  | cons r rs ih =>
    intro seenT hT hl
    have hr : pipeFree r := hl r (by simp)
    have hrT : pipeFreeT (tripleOf r) := hr
    have hmem : (dupKey r ∈ seenT.map keyT) ↔ tripleOf r ∈ seenT := by
      constructor
      · intro hm
        rcases List.mem_map.mp hm with ⟨t, htm, hkey⟩
        have := keyT_inj (hT t htm) hrT hkey
        rwa [← this]
      · intro hm
        rw [dupKey_eq_keyT]
        exact List.mem_map_of_mem keyT hm
    by_cases hin : tripleOf r ∈ seenT
    · simp only [goDedup, goDedupTriple, if_pos hin, if_pos (hmem.mpr hin)]
      rw [ih seenT hT (fun x hx => hl x (by simp [hx]))]
    · simp only [goDedup, goDedupTriple, if_neg hin,
        if_neg (fun hm => hin (hmem.mp hm))]
      have hstep : (dupKey r :: seenT.map keyT) =
          ((tripleOf r :: seenT).map keyT) := by
        rw [List.map_cons, dupKey_eq_keyT]
      rw [hstep, ih (tripleOf r :: seenT)
            (fun t htm => by
              rcases List.mem_cons.mp htm with rfl | htm
              · exact hrT
              · exact hT t htm)
            (fun x hx => hl x (by simp [hx]))]

/-- C8 counterexample: the duplicate key is the pipe-joined string, not
the literal triple.  The records (pac="A|B", code="C", date="D") and
(pac="A", code="B|C", date="D") form distinct triples, yet the second
is dropped and reported as 1 removed, while keying by the literal
triple would keep both and report 0. -/
theorem removeAllDuplicates_triple_cex :
    ¬ tripleOf ⟨"C".data, "A|B".data, "T".data, "N".data, "D".data⟩ =
        tripleOf ⟨"B|C".data, "A".data, "T".data, "N".data, "D".data⟩ ∧
    handleRemoveAllDuplicates
        [⟨"C".data, "A|B".data, "T".data, "N".data, "D".data⟩,
         ⟨"B|C".data, "A".data, "T".data, "N".data, "D".data⟩] =
      ([⟨"C".data, "A|B".data, "T".data, "N".data, "D".data⟩], 1) ∧
    removeAllDupByTriple
        [⟨"C".data, "A|B".data, "T".data, "N".data, "D".data⟩,
         ⟨"B|C".data, "A".data, "T".data, "N".data, "D".data⟩] =
      ([⟨"C".data, "A|B".data, "T".data, "N".data, "D".data⟩,
        ⟨"B|C".data, "A".data, "T".data, "N".data, "D".data⟩], 0) := by
  refine ⟨by decide, by decide, by decide⟩

/-- C8 (amended): remove-all-duplicates scans once in order keyed by
the joined string `paciente|cups|fecha`; whenever no field contains the
pipe character (true of every record the extractor can produce) this
coincides with keeping the first occurrence of every literal
(patientId, serviceCode, serviceDate) triple and reporting the number
dropped; and for the concrete list [A, A, B] of the claim it keeps one
A and one B and reports 1 removed. -/
theorem removeAllDuplicates_amended :
    (∀ regs : List RipsRecord, (∀ r ∈ regs, pipeFree r) →
        handleRemoveAllDuplicates regs = removeAllDupByTriple regs) ∧
    handleRemoveAllDuplicates
        [⟨"100001".data, "1".data, "T".data, "N".data, "2024-01-01".data⟩,
         ⟨"100001".data, "1".data, "T".data, "N".data, "2024-01-01".data⟩,
         ⟨"100001".data, "1".data, "T".data, "N".data, "2024-01-02".data⟩] =
      ([⟨"100001".data, "1".data, "T".data, "N".data, "2024-01-01".data⟩,
        ⟨"100001".data, "1".data, "T".data, "N".data, "2024-01-02".data⟩], 1) := by
  constructor
  · intro regs h
    have := goDedup_triple_eq regs [] (by simp) h
    simpa using this
  · decide

/-- C8 amended, witness: the claim's concrete list is pipe-free. -/
theorem removeAllDuplicates_amended_w :
    handleRemoveAllDuplicates
        [⟨"100001".data, "1".data, "T".data, "N".data, "2024-01-01".data⟩,
         ⟨"100001".data, "1".data, "T".data, "N".data, "2024-01-02".data⟩] =
      removeAllDupByTriple
        [⟨"100001".data, "1".data, "T".data, "N".data, "2024-01-01".data⟩,
         ⟨"100001".data, "1".data, "T".data, "N".data, "2024-01-02".data⟩] :=
  removeAllDuplicates_amended.1
    [⟨"100001".data, "1".data, "T".data, "N".data, "2024-01-01".data⟩,
     ⟨"100001".data, "1".data, "T".data, "N".data, "2024-01-02".data⟩]
    (by decide)

/-! ### C3: ranking tie order -/

theorem mem_insDesc {α : Type} (key : α → Nat) (x : α) (l : List α) (z : α) :
    z ∈ insDesc key x l ↔ z = x ∨ z ∈ l := by
  induction l with
  | nil => simp [insDesc]
  | cons y t ih =>
    simp only [insDesc]
    split
    · simp [List.mem_cons]
    · simp only [List.mem_cons, ih]
      tauto

theorem pairwise_insDesc {α : Type} (key : α → Nat) (x : α) (l : List α)
    (h : l.Pairwise (fun a b => key b ≤ key a)) :
    (insDesc key x l).Pairwise (fun a b => key b ≤ key a) := by
  induction l with
  | nil => simp [insDesc]
  | cons y t ih =>
    rcases List.pairwise_cons.mp h with ⟨hy, ht⟩
    simp only [insDesc]
    split
    · rename_i hxy
      refine List.pairwise_cons.mpr ⟨?_, h⟩
      intro z hz
      rcases List.mem_cons.mp hz with rfl | hz
      · exact hxy
      · exact le_trans (hy z hz) hxy
    · rename_i hxy
      refine List.pairwise_cons.mpr ⟨?_, ih ht⟩
      intro z hz
      rcases (mem_insDesc key x t z).mp hz with rfl | hz
      · omega
      · exact hy z hz

theorem pairwise_ssortDesc {α : Type} (key : α → Nat) (l : List α) :
    (ssortDesc key l).Pairwise (fun a b => key b ≤ key a) := by
  induction l with
  | nil => simp [ssortDesc]
  | cons x t ih => exact pairwise_insDesc key x _ ih

/-- Stability of the descending insertion sort: the sub-sequence of
elements with any fixed key is untouched. -/
theorem filter_insDesc {α : Type} (key : α → Nat) (c : Nat) (x : α) (l : List α) :
    (insDesc key x l).filter (fun a => key a == c) =
      (x :: l).filter (fun a => key a == c) := by
  induction l with
  | nil => rfl
  | cons y t ih =>
    simp only [insDesc]
    split
    · rfl
    · rename_i hxy
      by_cases hyc : key y = c
      · by_cases hxc : key x = c
        · omega
        · simp [List.filter_cons, ih, hxc, hyc]
      · by_cases hxc : key x = c <;> simp [List.filter_cons, ih, hxc, hyc]

theorem filter_ssortDesc {α : Type} (key : α → Nat) (c : Nat) (l : List α) :
    (ssortDesc key l).filter (fun a => key a == c) =
      l.filter (fun a => key a == c) := by
  induction l with
  | nil => rfl
  | cons x t ih =>
    simp only [ssortDesc]
    rw [filter_insDesc]
    simp only [List.filter_cons, ih]

/-- C3 counterexample: ties do not follow first-encounter order.
Two codes of equal count (200002 seen first, then 100001) are ranked
[100001, 200002] — `Object.entries` enumerates canonical array-index
keys in ascending numeric order.  Likewise a code whose two patients
tie (900111222 seen first, then 100111222) gets top patient
100111222 rather than the first-encountered one. -/
theorem rankingCUPS_tie_order_cex :
    ((rankingCUPS
        [⟨"200002".data, "111111111".data, "T".data, "N2".data, []⟩,
         ⟨"100001".data, "111111111".data, "T".data, "N1".data, []⟩]
        [⟨"T".data, 0, true⟩]).map (fun it => it.CUPS) =
          ["100001".data, "200002".data] ∧
      (rankingCUPS
        [⟨"200002".data, "111111111".data, "T".data, "N2".data, []⟩,
         ⟨"100001".data, "111111111".data, "T".data, "N1".data, []⟩]
        [⟨"T".data, 0, true⟩]).map (fun it => it.Cantidad) = [1, 1] ∧
      ¬ (rankingCUPS
        [⟨"200002".data, "111111111".data, "T".data, "N2".data, []⟩,
         ⟨"100001".data, "111111111".data, "T".data, "N1".data, []⟩]
        [⟨"T".data, 0, true⟩]).map (fun it => it.CUPS) =
          ["200002".data, "100001".data]) ∧
    ((rankingCUPS
        [⟨"100001".data, "900111222".data, "T".data, "N".data, []⟩,
         ⟨"100001".data, "100111222".data, "T".data, "N".data, []⟩]
        [⟨"T".data, 0, true⟩]).map (fun it => it.PacienteTop) =
          ["100111222".data] ∧
      ¬ (rankingCUPS
        [⟨"100001".data, "900111222".data, "T".data, "N".data, []⟩,
         ⟨"100001".data, "100111222".data, "T".data, "N".data, []⟩]
        [⟨"T".data, 0, true⟩]).map (fun it => it.PacienteTop) =
          ["900111222".data]) := by
  refine ⟨⟨by decide, by decide, by decide⟩, by decide, by decide⟩

/-- C3 (amended): rows are sorted by total count descending, and among
rows of equal count the relative order is that of `Object.entries` over
the counting object — canonical array-index keys (all-digit codes
without leading zeros below 2^32-1) first in ascending numeric order,
then remaining keys in insertion order — not first-encounter order; the
same enumeration governs tied top-patient selection.  Stated as: the
ranking is pairwise sorted by count descending, its sub-sequence at any
fixed count equals that of the pre-sort rows (built in `jsEntries`
order), and the two concrete ties of the counterexample resolve in
ascending numeric order. -/
theorem rankingCUPS_tie_order_amended :
    (∀ (regs : List RipsRecord) (metas : List ServiceTypeMeta),
        (rankingCUPS regs metas).Pairwise (fun a b => b.Cantidad ≤ a.Cantidad)) ∧
    (∀ (regs : List RipsRecord) (metas : List ServiceTypeMeta) (c : Nat),
        (rankingCUPS regs metas).filter (fun it => it.Cantidad == c) =
          (rankingRows regs metas).filter (fun it => it.Cantidad == c)) ∧
    (rankingCUPS
        [⟨"200002".data, "111111111".data, "T".data, "N2".data, []⟩,
         ⟨"100001".data, "111111111".data, "T".data, "N1".data, []⟩]
        [⟨"T".data, 0, true⟩]).map (fun it => it.CUPS) =
      ["100001".data, "200002".data] ∧
    (rankingCUPS
        [⟨"100001".data, "900111222".data, "T".data, "N".data, []⟩,
         ⟨"100001".data, "100111222".data, "T".data, "N".data, []⟩]
        [⟨"T".data, 0, true⟩]).map (fun it => it.PacienteTop) =
      ["100111222".data] := by
  refine ⟨?_, ?_, by decide, by decide⟩
  · intro regs metas
    exact pairwise_ssortDesc (fun it => it.Cantidad) (rankingRows regs metas)
  · intro regs metas c
    exact filter_ssortDesc (fun it => it.Cantidad) c (rankingRows regs metas)

end Rips

